import Mathlib

/-!
Verification of the progressive slot-filling onboarding core
(`app/core/llm.py` together with the `UserProfile` schema declared in
`app/api/schemas/onboarding.py`).

The Python code is shallowly embedded: Python dicts become association
lists over `String`, Python values stored in a profile become the
inductive `Value`, in-place mutation of the per-conversation records
becomes explicit state passing (`ConvState`), and the two external
language-model calls become oracle parameters (`TurnEnv`, `ExtractEnv`).
An exception escaping a Python function is modelled by `Except.error ()`.
-/

set_option maxRecDepth 4096

/-- A calendar date as produced by Python's `datetime.date`. -/
structure PDate where
  year : Nat
  month : Nat
  day : Nat
deriving DecidableEq, Repr

/-- A time of day as produced by Python's `datetime.time`. -/
structure PTime where
  hour : Nat
  minute : Nat
  second : Nat
deriving DecidableEq, Repr

/-- A Python value that can appear in a profile dict or an extraction
result: `vnone` is Python `None`; numbers, strings, booleans, dates and
times cover every type declared in `UserProfile`.  Python floats are
modelled exactly as rationals (the code never does float arithmetic on
them, it only parses, stores and compares them). -/
inductive Value where
  | vnone
  | vint (n : Int)
  | vfloat (q : Rat)
  | vstr (s : String)
  | vbool (b : Bool)
  | vdate (d : PDate)
  | vtime (t : PTime)
deriving DecidableEq, Repr

/-- A Python dict with string keys, as an association list (first
binding wins, mirroring lookup in a dict whose keys are unique). -/
abbrev Dict := List (String × Value)

/-- Lookup in an association list, mirroring Python `d.get(k)`. -/
def dictGet {α : Type} : List (String × α) → String → Option α
  | [], _ => none
  | kv :: rest, k => if kv.1 = k then some kv.2 else dictGet rest k

/-- Python `d[k] = v`: replace the binding in place if the key is
present (keeping its position), otherwise append it at the end. -/
def dictSet {α : Type} (p : List (String × α)) (k : String) (v : α) :
    List (String × α) :=
  if (dictGet p k).isSome then
    p.map (fun kv => if kv.1 = k then (k, v) else kv)
  else
    p ++ [(k, v)]

/-- Python `{**p, **u}`: keys of `p` in order with values overridden by
`u`, followed by the keys of `u` that are new. -/
def dictMerge {α : Type} (p u : List (String × α)) : List (String × α) :=
  p.map (fun kv =>
    match dictGet u kv.1 with
    | some v => (kv.1, v)
    | none => kv)
  ++ u.filter (fun kv => (dictGet p kv.1).isNone)

/-- The field names and declared types of `UserProfile`
(`app/api/schemas/onboarding.py`), in declaration order. -/
inductive FType where
  | tint
  | tfloat
  | tdate
  | ttime
  | tbool
  | ttext
deriving DecidableEq, Repr

/-- The `UserProfile` schema: field names with their declared types, in
Pydantic declaration order (this order is the question order). -/
def schemaTypes : List (String × FType) := [
  ("age", .tint),
  ("date_of_birth", .tdate),
  ("gender_or_sex", .ttext),
  ("height_cm", .tfloat),
  ("weight_kg", .tfloat),
  ("sleep_bedtime", .ttime),
  ("sleep_wake_time", .ttime),
  ("workout_type", .ttext),
  ("workout_days_per_week", .tint),
  ("physical_activity_profile", .ttext),
  ("substance_alcohol_per_week", .tfloat),
  ("substance_tobacco_per_day", .tfloat),
  ("substance_caffeine_mg_per_day", .tfloat),
  ("coping_strategies", .ttext),
  ("preferred_checkin_time", .ttime),
  ("notification_style", .ttext),
  ("married_status", .ttext),
  ("social_support", .tbool),
  ("target_sleep_hours", .tfloat),
  ("voice_or_chat_preference", .ttext)]

/-- `_ordered_profile_fields` (llm.py line 37): the schema field names in
declaration order. -/
def schemaFields : List String := schemaTypes.map (·.1)

/-- Python truthiness of a stored value (`bool(value)`): `None`, `0`,
`0.0`, the empty string and `False` are falsy; dates and times are
always truthy. -/
def truthy : Value → Bool
  | .vnone => false
  | .vint n => decide (n ≠ 0)
  | .vfloat q => decide (q ≠ 0)
  | .vstr s => decide (s ≠ "")
  | .vbool b => b
  | .vdate _ => true
  | .vtime _ => true

/-- Truthiness of `profile.get(k)` (missing key gives `None`, falsy). -/
def truthyO : Option Value → Bool
  | none => false
  | some v => truthy v

/-- `_missing_fields` (llm.py lines 68-81): schema order filtered to the
fields neither present (as a key) in the profile nor skipped, with the
two redundancy suppressions for `age` and `date_of_birth`. -/
def missing_fields (profile : Dict) (skipped : List String) : List String :=
  let base := schemaFields.filter
    (fun f => decide (dictGet profile f = none ∧ f ∉ skipped))
  let base2 :=
    if dictGet profile "date_of_birth" ≠ none then
      base.filter (fun f => decide (f ≠ "age"))
    else base
  if dictGet profile "age" ≠ none then
    base2.filter (fun f => decide (f ≠ "date_of_birth"))
  else base2

/-- The lexicographic `(month, day) < (month, day)` tuple comparison in
`_apply_derived_fields` (llm.py line 93). -/
def monthDayLt (today dob : PDate) : Prop :=
  today.month < dob.month ∨ (today.month = dob.month ∧ today.day < dob.day)

instance (today dob : PDate) : Decidable (monthDayLt today dob) := by
  unfold monthDayLt; infer_instance

/-- The whole-year age computation of `_apply_derived_fields`
(llm.py line 93). -/
def ageYears (today dob : PDate) : Int :=
  (today.year : Int) - (dob.year : Int) -
    (if monthDayLt today dob then 1 else 0)

/-- ASCII whitespace recognised by Python `str.strip` (the repository's
inputs are ASCII). -/
def isPySpace (c : Char) : Bool :=
  c = ' ' || c = '\t' || c = '\n' || c = '\r' || c = '\x0b' || c = '\x0c'

/-- Python `str.strip()` on ASCII whitespace, implemented over the
character list so that it evaluates by kernel reduction. -/
def pyStrip (s : String) : String :=
  ((s.data.dropWhile isPySpace).reverse.dropWhile isPySpace).reverse.asString

/-- ASCII lower-casing of one character. -/
def lowerChar (c : Char) : Char :=
  if 'A' ≤ c ∧ c ≤ 'Z' then Char.ofNat (c.toNat + 32) else c

/-- ASCII upper-casing of one character. -/
def upperChar (c : Char) : Char :=
  if 'a' ≤ c ∧ c ≤ 'z' then Char.ofNat (c.toNat - 32) else c

/-- Python `str.lower()` (ASCII model). -/
def pyLower (s : String) : String := (s.data.map lowerChar).asString

/-- Python `str.upper()` (ASCII model). -/
def pyUpper (s : String) : String := (s.data.map upperChar).asString

/-- Full-string ISO `YYYY-MM-DD` parse, modelling
`date.fromisoformat(str(value))` on the canonical date format (an
invalid calendar date raises, giving `none`). -/
def parseFullIsoDate (s : String) : Option PDate :=
  match s.data with
  | [y1, y2, y3, y4, '-', m1, m2, '-', d1, d2] =>
    if y1.isDigit ∧ y2.isDigit ∧ y3.isDigit ∧ y4.isDigit ∧ m1.isDigit ∧
        m2.isDigit ∧ d1.isDigit ∧ d2.isDigit then
      let y := ((y1.toNat - 48) * 10 + (y2.toNat - 48)) * 100 +
        ((y3.toNat - 48) * 10 + (y4.toNat - 48))
      let m := (m1.toNat - 48) * 10 + (m2.toNat - 48)
      let d := (d1.toNat - 48) * 10 + (d2.toNat - 48)
      if isValidDate y m d then some ⟨y, m, d⟩ else none
    else none
  | _ => none
where
  /-- Gregorian leap-year rule used by `datetime.date`. -/
  isLeap (y : Nat) : Bool :=
    y % 4 = 0 && (y % 100 ≠ 0 || y % 400 = 0)
  /-- Days in a month as `datetime.date` validates them. -/
  daysInMonth (y m : Nat) : Nat :=
    if m = 2 then (if isLeap y then 29 else 28)
    else if m = 4 ∨ m = 6 ∨ m = 9 ∨ m = 11 then 30
    else 31
  /-- Validity of a `datetime.date(y, m, d)` construction. -/
  isValidDate (y m d : Nat) : Bool :=
    1 ≤ y && y ≤ 9999 && 1 ≤ m && m ≤ 12 && 1 ≤ d && d ≤ daysInMonth y m

/-- The conversion applied to a stored `date_of_birth` value by
`_apply_derived_fields` (llm.py line 91): a `date` is used as is,
anything else goes through `date.fromisoformat(str(value))`, which only
succeeds for a string holding a canonical ISO date. -/
def asDateV : Value → Option PDate
  | .vdate d => some d
  | .vstr s => parseFullIsoDate s
  | _ => none

/-- `_apply_derived_fields` (llm.py lines 84-98): if `date_of_birth` is
truthy and `age` is falsy, derive the whole-year age and store it when
nonnegative; on any parse failure the profile is returned unchanged
(the Python code swallows the exception). -/
def apply_derived_fields (today : PDate) (p : Dict) : Dict :=
  if truthyO (dictGet p "date_of_birth") && !(truthyO (dictGet p "age")) then
    match (dictGet p "date_of_birth").bind asDateV with
    | some dob =>
      if 0 ≤ ageYears today dob then
        dictSet p "age" (Value.vint (ageYears today dob))
      else p
    | none => p
  else p

/-- Numeric value of a run of ASCII digits. -/
def digitsToNat (ds : List Char) : Nat :=
  ds.foldl (fun n c => n * 10 + (c.toNat - 48)) 0

/-- The maximal run of digits at the head of the list (regex `\d+`). -/
def digitRun (s : List Char) : List Char :=
  s.takeWhile Char.isDigit

/-- First match of the regex `-?\d+` (llm.py `_to_int`, line 100):
scan left to right; a `-` only starts a match when a digit follows. -/
def findIntToken : List Char → Option (Bool × List Char)
  | [] => none
  | c :: rest =>
    if c = '-' then
      match rest with
      | d :: _ =>
        if d.isDigit then some (true, digitRun rest) else findIntToken rest
      | [] => none
    else if c.isDigit then some (false, c :: digitRun rest)
    else findIntToken rest

/-- `_to_int` (llm.py lines 99-106): the first `-?\d+` token anywhere in
the string, as an integer. -/
def to_int (value : String) : Option Int :=
  (findIntToken value.data).map (fun sd =>
    if sd.1 then -(digitsToNat sd.2 : Int) else (digitsToNat sd.2 : Int))

/-- The optional fractional part `(?:\.\d+)?` after an integer run: a
dot followed by at least one digit. -/
def fracRun : List Char → List Char
  | '.' :: d :: rest => if d.isDigit then d :: digitRun rest else []
  | _ => []

/-- First match of `-?\d+(?:\.\d+)?` (llm.py `_to_float`, line 110):
sign flag, integer digits, fractional digits (possibly empty). -/
def findFloatToken : List Char → Option (Bool × List Char × List Char)
  | [] => none
  | c :: rest =>
    if c = '-' then
      match rest with
      | d :: _ =>
        if d.isDigit then
          some (true, digitRun rest, fracRun (rest.drop (digitRun rest).length))
        else findFloatToken rest
      | [] => none
    else if c.isDigit then
      some (false, c :: digitRun rest,
        fracRun (rest.drop (digitRun rest).length))
    else findFloatToken rest

/-- `_to_float` (llm.py lines 109-116): the first decimal-number token,
as an exact rational. -/
def to_float (value : String) : Option Rat :=
  (findFloatToken value.data).map (fun t =>
    let mag : Rat := mkRat (digitsToNat t.2.1 * 10 ^ t.2.2.length +
      digitsToNat t.2.2) (10 ^ t.2.2.length)
    if t.1 then -mag else mag)

/-- Word characters for the regex `\b` boundary (ASCII `\w`). -/
def isWordChar (c : Char) : Bool :=
  c.isAlphanum || c = '_'

/-- The `\b` boundary after a match: end of input or a non-word char. -/
def boundaryAfter : List Char → Bool
  | [] => true
  | c :: _ => !isWordChar c

/-- Exactly two digits, returning their value and the rest. -/
def twoDigits : List Char → Option (Nat × List Char)
  | a :: b :: rest =>
    if a.isDigit && b.isDigit then
      some ((a.toNat - 48) * 10 + (b.toNat - 48), rest)
    else none
  | _ => none

/-- Tail of the time regex after the hour: `:(\d{2})(?::(\d{2}))?\b`,
with the optional seconds group tried greedily first (regex
backtracking). -/
def timeTail (hh : Nat) : List Char → Option (Nat × Nat × Nat)
  | ':' :: rest =>
    match twoDigits rest with
    | some (mm, rest2) =>
      let noSec : Option (Nat × Nat × Nat) :=
        if boundaryAfter rest2 then some (hh, mm, 0) else none
      match rest2 with
      | ':' :: rest3 =>
        match twoDigits rest3 with
        | some (ss, rest4) =>
          if boundaryAfter rest4 then some (hh, mm, ss) else noSec
        | none => noSec
      | _ => noSec
    | none => none
  | _ => none

/-- The time regex `(\d{1,2}):(\d{2})(?::(\d{2}))?` anchored at this
position (the greedy `\d{1,2}` tries two digits before one). -/
def timeAt : List Char → Option (Nat × Nat × Nat)
  | a :: rest =>
    if a.isDigit then
      let try2 : Option (Nat × Nat × Nat) :=
        match rest with
        | b :: rest2 =>
          if b.isDigit then
            timeTail ((a.toNat - 48) * 10 + (b.toNat - 48)) rest2
          else none
        | [] => none
      match try2 with
      | some r => some r
      | none => timeTail (a.toNat - 48) rest
    else none
  | [] => none

/-- Left-to-right scan of `\b(\d{1,2}):(\d{2})(?::(\d{2}))?\b`,
tracking the previous character for the leading `\b`. -/
def scanTime : Option Char → List Char → Option (Nat × Nat × Nat)
  | _, [] => none
  | prev, c :: rest =>
    let boundaryOk : Bool :=
      match prev with
      | none => true
      | some pc => !isWordChar pc
    match (if boundaryOk then timeAt (c :: rest) else none) with
    | some r => some r
    | none => scanTime (some c) rest

/-- `_to_time` (llm.py lines 119-130): strip, find the first time token,
and build a `time` (out-of-range components raise, giving `none`). -/
def to_time (value : String) : Option PTime :=
  match scanTime none (pyStrip value).data with
  | none => none
  | some (hh, mm, ss) =>
    if hh ≤ 23 ∧ mm ≤ 59 ∧ ss ≤ 59 then some ⟨hh, mm, ss⟩ else none

/-- The date regex `\d{4}-\d{2}-\d{2}\b` anchored at this position,
returning the raw year, month and day digits. -/
def dateAt : List Char → Option (Nat × Nat × Nat)
  | y1 :: y2 :: y3 :: y4 :: '-' :: m1 :: m2 :: '-' :: d1 :: d2 :: rest =>
    if y1.isDigit ∧ y2.isDigit ∧ y3.isDigit ∧ y4.isDigit ∧ m1.isDigit ∧
        m2.isDigit ∧ d1.isDigit ∧ d2.isDigit ∧ boundaryAfter rest then
      some (((y1.toNat - 48) * 10 + (y2.toNat - 48)) * 100 +
          ((y3.toNat - 48) * 10 + (y4.toNat - 48)),
        (m1.toNat - 48) * 10 + (m2.toNat - 48),
        (d1.toNat - 48) * 10 + (d2.toNat - 48))
    else none
  | _ => none

/-- Left-to-right scan of `\b\d{4}-\d{2}-\d{2}\b`. -/
def scanDate : Option Char → List Char → Option (Nat × Nat × Nat)
  | _, [] => none
  | prev, c :: rest =>
    let boundaryOk : Bool :=
      match prev with
      | none => true
      | some pc => !isWordChar pc
    match (if boundaryOk then dateAt (c :: rest) else none) with
    | some r => some r
    | none => scanDate (some c) rest

/-- `_to_date` (llm.py lines 133-140): the first ISO-shaped token, fed
to `date.fromisoformat` (an invalid calendar date gives `none`). -/
def to_date (value : String) : Option PDate :=
  match scanDate none value.data with
  | none => none
  | some (y, m, d) =>
    if parseFullIsoDate.isValidDate y m d then some ⟨y, m, d⟩ else none

/-- `_to_bool` (llm.py lines 143-149). -/
def to_bool (value : String) : Option Bool :=
  let v := pyLower (pyStrip value)
  if v = "yes" ∨ v = "y" ∨ v = "true" ∨ v = "1" then some true
  else if v = "no" ∨ v = "n" ∨ v = "false" ∨ v = "0" then some false
  else none

/-- The label synonym table of `_extract_from_labeled_lines`
(llm.py lines 157-185). -/
def label_to_field : List (String × String) := [
  ("AGE", "age"),
  ("DATE OF BIRTH", "date_of_birth"),
  ("GENDER", "gender_or_sex"),
  ("GENDER OR SEX", "gender_or_sex"),
  ("HEIGHT", "height_cm"),
  ("HEIGHT CM", "height_cm"),
  ("WEIGHT", "weight_kg"),
  ("USUAL BEDTIME", "sleep_bedtime"),
  ("BEDTIME", "sleep_bedtime"),
  ("USUAL WAKE TIME", "sleep_wake_time"),
  ("WAKE TIME", "sleep_wake_time"),
  ("PRIMARY WORKOUT TYPE", "workout_type"),
  ("WORKOUT TYPE", "workout_type"),
  ("WORKOUT DAYS PER WEEK", "workout_days_per_week"),
  ("WORK/ACTIVITY STYLE", "physical_activity_profile"),
  ("PHYSICAL ACTIVITY PROFILE", "physical_activity_profile"),
  ("ALCOHOL CONSUMPTION", "substance_alcohol_per_week"),
  ("TOBACCO CONSUMPTION", "substance_tobacco_per_day"),
  ("CAFFEINE CONSUMPTION", "substance_caffeine_mg_per_day"),
  ("COPING STRATEGIES", "coping_strategies"),
  ("PREFERRED CHECK-IN TIME", "preferred_checkin_time"),
  ("NOTIFICATION STYLE", "notification_style"),
  ("MARITAL STATUS", "married_status"),
  ("SOCIAL SUPPORT", "social_support"),
  ("TARGET SLEEP HOURS", "target_sleep_hours"),
  ("COMMUNICATION PREFERENCE", "voice_or_chat_preference"),
  ("VOICE OR CHAT PREFERENCE", "voice_or_chat_preference")]

/-- Python `str.splitlines` on the line breaks the repository's inputs
can contain (`\n`, `\r\n`, `\r`); no trailing empty line is produced. -/
def splitLinesAux (acc : List Char) : List Char → List (List Char)
  | [] => if acc.isEmpty then [] else [acc.reverse]
  | '\r' :: '\n' :: rest => acc.reverse :: splitLinesAux [] rest
  | '\r' :: rest => acc.reverse :: splitLinesAux [] rest
  | '\n' :: rest => acc.reverse :: splitLinesAux [] rest
  | c :: rest => splitLinesAux (acc.cons c) rest

/-- `user_input.splitlines()` (llm.py line 188). -/
def splitlines (s : String) : List String :=
  (splitLinesAux [] s.data).map List.asString

/-- `raw_line.split(":", 1)` when the line contains a colon
(llm.py lines 189-191); `none` models the `continue` for a line with no
colon. -/
def splitFirstColon : List Char → Option (List Char × List Char)
  | [] => none
  | c :: rest =>
    if c = ':' then some ([], rest)
    else (splitFirstColon rest).map (fun p => (c :: p.1, p.2))

/-- The per-field value dispatch of `_extract_from_labeled_lines`
(llm.py lines 198-210). -/
def parseFieldValue (field value : String) : Option Value :=
  if field = "age" ∨ field = "workout_days_per_week" then
    (to_int value).map Value.vint
  else if field = "height_cm" ∨ field = "weight_kg" ∨
      field = "substance_alcohol_per_week" ∨
      field = "substance_tobacco_per_day" ∨
      field = "substance_caffeine_mg_per_day" ∨
      field = "target_sleep_hours" then
    (to_float value).map Value.vfloat
  else if field = "sleep_bedtime" ∨ field = "sleep_wake_time" ∨
      field = "preferred_checkin_time" then
    (to_time value).map Value.vtime
  else if field = "date_of_birth" then
    (to_date value).map Value.vdate
  else if field = "social_support" then
    (to_bool value).map Value.vbool
  else if field = "gender_or_sex" ∨ field = "workout_type" ∨
      field = "physical_activity_profile" ∨ field = "coping_strategies" ∨
      field = "notification_style" ∨ field = "married_status" ∨
      field = "voice_or_chat_preference" then
    some (Value.vstr (pyLower value))
  else none

/-- One loop iteration of `_extract_from_labeled_lines`
(llm.py lines 188-213): parse a `Label: value` line and store the value
when the label is known and the value parses. -/
def processLine (updates : Dict) (line : String) : Dict :=
  match splitFirstColon line.data with
  | none => updates
  | some (lp, vp) =>
    let label := pyUpper (pyStrip lp.asString)
    let value := pyStrip vp.asString
    match dictGet label_to_field label with
    | none => updates
    | some field =>
      match parseFieldValue field value with
      | some v => dictSet updates field v
      | none => updates

/-- `_extract_from_labeled_lines` (llm.py lines 152-215): fold the line
parser over the utterance's lines; a later line for the same field wins. -/
def extract_from_labeled_lines (user_input : String) : Dict :=
  (splitlines user_input).foldl processLine []

/-- Full-string `HH:MM` or `HH:MM:SS` parse used for coercing a string
candidate into a `time`-typed schema field. -/
def parseFullTime (s : String) : Option PTime :=
  match s.data with
  | [h1, h2, ':', m1, m2] =>
    if h1.isDigit ∧ h2.isDigit ∧ m1.isDigit ∧ m2.isDigit then
      let hh := (h1.toNat - 48) * 10 + (h2.toNat - 48)
      let mm := (m1.toNat - 48) * 10 + (m2.toNat - 48)
      if hh ≤ 23 ∧ mm ≤ 59 then some ⟨hh, mm, 0⟩ else none
    else none
  | [h1, h2, ':', m1, m2, ':', s1, s2] =>
    if h1.isDigit ∧ h2.isDigit ∧ m1.isDigit ∧ m2.isDigit ∧ s1.isDigit ∧
        s2.isDigit then
      let hh := (h1.toNat - 48) * 10 + (h2.toNat - 48)
      let mm := (m1.toNat - 48) * 10 + (m2.toNat - 48)
      let ss := (s1.toNat - 48) * 10 + (s2.toNat - 48)
      if hh ≤ 23 ∧ mm ≤ 59 ∧ ss ≤ 59 then some ⟨hh, mm, ss⟩ else none
    else none
  | _ => none

/-- Full-string signed integer parse used for coercing a string
candidate into an integer-typed schema field. -/
def parseIntStr (s : String) : Option Int :=
  match (pyStrip s).data with
  | [] => none
  | '-' :: ds =>
    if ds ≠ [] ∧ ds.all Char.isDigit then some (-(digitsToNat ds : Int))
    else none
  | '+' :: ds =>
    if ds ≠ [] ∧ ds.all Char.isDigit then some ((digitsToNat ds : Int))
    else none
  | ds =>
    if ds.all Char.isDigit then some ((digitsToNat ds : Int)) else none

/-- Full-string unsigned decimal-number parse (`digits` or
`digits.digits`). -/
def parseUnsignedRat (ds : List Char) : Option Rat :=
  let ip := digitRun ds
  let rest := ds.drop ip.length
  if ip = [] then none
  else
    match rest with
    | [] => some (mkRat (digitsToNat ip) 1)
    | '.' :: fs =>
      if fs ≠ [] ∧ fs.all Char.isDigit then
        some (mkRat (digitsToNat ip * 10 ^ fs.length + digitsToNat fs)
          (10 ^ fs.length))
      else none
    | _ => none

/-- Full-string signed decimal-number parse used for coercing a string
candidate into a float-typed schema field. -/
def parseRatStr (s : String) : Option Rat :=
  match (pyStrip s).data with
  | '-' :: ds => (parseUnsignedRat ds).map Neg.neg
  | '+' :: ds => parseUnsignedRat ds
  | ds => parseUnsignedRat ds

/-- Modelled from the spec: the Pydantic validation performed by
`UserProfile(**merged)` (llm.py line 419) is library code that is not
part of this repository; following §4.1 of the spec
(`validate_and_coerce`: "applying type coercion per declared type;
fails if any present value cannot be coerced to its declared type"),
one candidate value is coerced to one declared type here, in Pydantic's
lax style: values already of the declared type pass through, numeric
strings coerce to numbers, ISO strings coerce to dates and times,
integral floats coerce to integers, and the usual boolean spellings
coerce to booleans.  `none` is a coercion failure; a `vnone` candidate
is never passed to this function (it validates against every optional
field and is dropped by the `None`-stripping re-fill loop). -/
def coerceVal : FType → Value → Option Value
  | _, .vnone => none
  | .tint, .vint n => some (.vint n)
  | .tint, .vfloat q => if q.den = 1 then some (.vint q.num) else none
  | .tint, .vstr s => (parseIntStr s).map Value.vint
  | .tint, _ => none
  | .tfloat, .vfloat q => some (.vfloat q)
  | .tfloat, .vint n => some (.vfloat (mkRat n 1))
  | .tfloat, .vstr s => (parseRatStr s).map Value.vfloat
  | .tfloat, _ => none
  | .tdate, .vdate d => some (.vdate d)
  | .tdate, .vstr s => (parseFullIsoDate s).map Value.vdate
  | .tdate, _ => none
  | .ttime, .vtime t => some (.vtime t)
  | .ttime, .vstr s => (parseFullTime s).map Value.vtime
  | .ttime, _ => none
  | .tbool, .vbool b => some (.vbool b)
  | .tbool, .vint n =>
    if n = 0 then some (.vbool false)
    else if n = 1 then some (.vbool true)
    else none
  | .tbool, .vstr s =>
    let v := pyLower s
    if v = "yes" ∨ v = "y" ∨ v = "true" ∨ v = "t" ∨ v = "on" ∨ v = "1" then
      some (.vbool true)
    else if v = "no" ∨ v = "n" ∨ v = "false" ∨ v = "f" ∨ v = "off" ∨
        v = "0" then
      some (.vbool false)
    else none
  | .tbool, _ => none
  | .ttext, .vstr s => some (.vstr s)
  | .ttext, _ => none

/-- Coercion of a candidate value for a named field: fields outside the
schema never coerce (Pydantic ignores them; the canonical re-fill loop
never sees them). -/
def coerceField (f : String) (v : Value) : Option Value :=
  match dictGet schemaTypes f with
  | some t => coerceVal t v
  | none => none

/-- The validate-and-refill step of `generate_onboarding_reply`
(llm.py lines 419-424) over a list of schema fields: `UserProfile(**merged)`
followed by the loop that re-fills the profile with the non-`None`
entries of `validated.model_dump()` in schema order.  `none` models the
constructor raising a validation error; a present `vnone` candidate
validates (every field is optional) and is dropped by the re-fill. -/
def validateFields : List String → Dict → Option Dict
  | [], _ => some []
  | f :: fs, merged =>
    match validateFields fs merged with
    | none => none
    | some rest =>
      match dictGet merged f with
      | none => some rest
      | some v =>
        if v = Value.vnone then some rest
        else
          match coerceField f v with
          | none => none
          | some w => some ((f, w) :: rest)

/-- The extraction-merge step of `generate_onboarding_reply`
(llm.py lines 415-427): with a nonempty update mapping, merge it over
the profile, validate and coerce, and keep the old profile when
validation fails. -/
def mergeProfileStep (profile updates : Dict) : Dict :=
  if updates = [] then profile
  else
    match validateFields schemaFields (dictMerge profile updates) with
    | some validated => validated
    | none => profile

/-- Oracle for one call of `_extract_profile_updates` (llm.py lines
270-363), capturing the decision points of the two model-assisted
attempts: the LangChain structured-output attempt either yields a
`model_dump`-shaped mapping (`langchainOk`, with `vnone` for null
fields), or raises and control enters the OpenAI JSON-mode fallback,
whose completion call either raises (`fallbackRaise`), returns content
that is not JSON (`fallbackNotJson`), returns JSON that is not an
object (`fallbackNonDict`), or returns a JSON object
(`fallbackDict`). -/
inductive ExtractEnv where
  | langchainOk (dump : Dict)
  | fallbackRaise
  | fallbackNotJson
  | fallbackNonDict
  | fallbackDict (data : Dict)
deriving DecidableEq, Repr

/-- The field-name whitelist of the JSON-mode fallback
(llm.py lines 314-335); it lists the same twenty names as the schema,
in the same order. -/
def fields_list : List String := [
  "age",
  "date_of_birth",
  "gender_or_sex",
  "height_cm",
  "weight_kg",
  "sleep_bedtime",
  "sleep_wake_time",
  "workout_type",
  "workout_days_per_week",
  "physical_activity_profile",
  "substance_alcohol_per_week",
  "substance_tobacco_per_day",
  "substance_caffeine_mg_per_day",
  "coping_strategies",
  "preferred_checkin_time",
  "notification_style",
  "married_status",
  "social_support",
  "target_sleep_hours",
  "voice_or_chat_preference"]

/-- `_extract_profile_updates` (llm.py lines 270-363).  On the LangChain
path the null entries of the dump are dropped and the labeled-line
parser's results override them (`{**langchain_updates, **labeled}`,
line 311).  If LangChain fails, the fallback completion call runs
outside any try block, so its exception propagates (`Except.error`);
on success, non-JSON content or a non-dict document yields `{}`
(lines 357-358, 362-363), and a JSON object is filtered to known,
non-null keys and merged under the labeled-line results (line 361). -/
def extract_profile_updates (env : ExtractEnv) (user_input : String) :
    Except Unit Dict :=
  match env with
  | .langchainOk dump =>
    .ok (dictMerge (dump.filter (fun kv => decide (kv.2 ≠ Value.vnone)))
      (extract_from_labeled_lines user_input))
  | .fallbackRaise => .error ()
  | .fallbackNotJson => .ok []
  | .fallbackNonDict => .ok []
  | .fallbackDict data =>
    .ok (dictMerge
      (data.filter (fun kv =>
        decide (kv.1 ∈ fields_list ∧ kv.2 ≠ Value.vnone)))
      (extract_from_labeled_lines user_input))

/-- One message of the in-memory history (`{"role": ..., "content": ...}`). -/
structure Msg where
  role : String
  content : String
deriving DecidableEq, Repr

/-- The per-conversation-key state held by the module-level stores
(llm.py lines 15-17): message history, accumulated profile, skipped
field names (the Python set is modelled as a duplicate-free list in
insertion order). -/
structure ConvState where
  history : List Msg
  profile : Dict
  skipped : List String
deriving DecidableEq, Repr

/-- Oracle for one turn: the outcome of the conversational completion
call (llm.py line 402; `none` models the call raising, `some reply`
a successful response whose content is `reply`), and the oracle for the
extraction call that follows. -/
structure TurnEnv where
  completion : Option String
  ext : ExtractEnv
deriving DecidableEq, Repr

/-- The skip tokens of llm.py line 386. -/
def skipTokens : List String := ["skip", "unknown", "na", "n/a"]

/-- Python `set.add`. -/
def setAdd (s : List String) (x : String) : List String :=
  if x ∈ s then s else s ++ [x]

/-- `generate_onboarding_reply` (llm.py lines 366-434) for one
conversation key, with the current date and the external calls as
parameters.  The returned state is the content of the stores after the
call returns or raises (`Except.error ()`), since the Python code
mutates them in place as it goes: derived fields and skip handling are
applied before the completion call; the history append, the
extraction/merge and the re-derivation happen only after a successful
completion; a raising extraction call leaves the history appended but
the profile unmerged; the final canonical-snapshot construction
(`UserProfile(**profile)`, line 433) raises if the stored profile no
longer validates. -/
def generate_onboarding_reply (today : PDate) (env : TurnEnv)
    (st : ConvState) (user_input : String) :
    ConvState × Except Unit String :=
  let profile1 := apply_derived_fields today st.profile
  let targeted := (missing_fields profile1 st.skipped).head?
  let skipped1 :=
    match targeted with
    | some f =>
      if pyLower (pyStrip user_input) ∈ skipTokens then setAdd st.skipped f
      else st.skipped
    | none => st.skipped
  match env.completion with
  | none => (⟨st.history, profile1, skipped1⟩, .error ())
  | some reply =>
    let history1 := st.history ++ [⟨"user", user_input⟩, ⟨"assistant", reply⟩]
    match extract_profile_updates env.ext user_input with
    | .error _ => (⟨history1, profile1, skipped1⟩, .error ())
    | .ok updates =>
      let profile2 := mergeProfileStep profile1 updates
      let profile3 := apply_derived_fields today profile2
      if (validateFields schemaFields profile3).isSome then
        (⟨history1, profile3, skipped1⟩, .ok reply)
      else
        (⟨history1, profile3, skipped1⟩, .error ())

/-- A well-formed stored profile: every binding is a fixed point of its
field's coercion (so its key is a schema field and its value is typed
and non-null).  This is the invariant the store maintains: values only
enter a profile through validation or through the integer age
derivation. -/
def ValidDict (p : Dict) : Prop :=
  ∀ kv ∈ p, coerceField kv.1 kv.2 = some kv.2

instance (p : Dict) : Decidable (ValidDict p) := by
  unfold ValidDict
  infer_instance

/-- The net effect of validation on one present candidate value: `vnone`
entries are dropped by the re-fill loop and other values are coerced. -/
def stripCoerce (f : String) : Option Value → Option Value
  | none => none
  | some v => if v = Value.vnone then none else coerceField f v

/-! ### Association-list lemmas -/

theorem dictGet_append_some {α : Type} {a : List (String × α)}
    (b : List (String × α)) {k : String} {v : α}
    (h : dictGet a k = some v) : dictGet (a ++ b) k = some v := by
  induction a with
  | nil => simp [dictGet] at h
  | cons kv rest ih =>
    by_cases hk : kv.1 = k
    · simpa [dictGet, hk] using h
    · simp only [dictGet, hk, if_false] at h
      simp only [List.cons_append, dictGet, hk, if_false]
      exact ih h

theorem dictGet_append_none {α : Type} {a : List (String × α)}
    (b : List (String × α)) {k : String}
    (h : dictGet a k = none) : dictGet (a ++ b) k = dictGet b k := by
  induction a with
  | nil => simp [dictGet]
  | cons kv rest ih =>
    by_cases hk : kv.1 = k
    · simp [dictGet, hk] at h
    · simp only [dictGet, hk, if_false] at h
      simp only [List.cons_append, dictGet, hk, if_false]
      exact ih h

theorem dictGet_eq_none_iff {α : Type} {p : List (String × α)} {k : String} :
    dictGet p k = none ↔ ∀ kv ∈ p, kv.1 ≠ k := by
  induction p with
  | nil => simp [dictGet]
  | cons kv rest ih =>
    by_cases hk : kv.1 = k
    · simp [dictGet, hk]
    · simp [dictGet, hk, ih]

theorem dictGet_mem {α : Type} {p : List (String × α)} {k : String} {v : α}
    (h : dictGet p k = some v) : (k, v) ∈ p := by
  induction p with
  | nil => simp [dictGet] at h
  | cons kv rest ih =>
    by_cases hk : kv.1 = k
    · simp only [dictGet, hk, if_true] at h
      have hv : kv.2 = v := by injection h
      have : kv = (k, v) := by
        obtain ⟨a, b⟩ := kv
        simp only at hk hv
        rw [hk, hv]
      rw [← this]
      exact List.mem_cons_self kv rest
    · simp only [dictGet, hk, if_false] at h
      exact List.mem_cons_of_mem _ (ih h)

theorem dictGet_map_override_none {α : Type} (u : List (String × α))
    {p : List (String × α)} {k : String} (h : dictGet p k = none) :
    dictGet (p.map (fun kv =>
      match dictGet u kv.1 with
      | some v => (kv.1, v)
      | none => kv)) k = none := by
  rw [dictGet_eq_none_iff]
  intro kv' hmem
  obtain ⟨a, ha, hma⟩ := List.mem_map.mp hmem
  have hkey : kv'.1 = a.1 := by
    rw [← hma]; cases dictGet u a.1 <;> rfl
  rw [hkey]
  exact dictGet_eq_none_iff.mp h a ha

theorem dictGet_map_override_some {α : Type} (u : List (String × α))
    {p : List (String × α)} {k : String} {w : α} (h : dictGet p k = some w) :
    dictGet (p.map (fun kv =>
      match dictGet u kv.1 with
      | some v => (kv.1, v)
      | none => kv)) k =
      match dictGet u k with
      | some v => some v
      | none => some w := by
  induction p with
  | nil => simp [dictGet] at h
  | cons a rest ih =>
    by_cases hk : a.1 = k
    · simp only [dictGet, hk, if_true] at h
      have hw : a.2 = w := by injection h
      subst hk
      cases hu : dictGet u a.1 <;> simp [dictGet, hu, hw]
    · simp only [dictGet, hk, if_false] at h
      have hkey : (match dictGet u a.1 with
        | some v => (a.1, v)
        | none => a).1 = a.1 := by cases dictGet u a.1 <;> rfl
      simp only [List.map_cons, dictGet, hkey, hk, if_false]
      exact ih h

theorem dictGet_filter_of_none {α : Type} (u : List (String × α))
    {p : List (String × α)} {k : String} (h : dictGet p k = none) :
    dictGet (u.filter (fun kv => (dictGet p kv.1).isNone)) k = dictGet u k := by
  induction u with
  | nil => simp [dictGet]
  | cons a rest ih =>
    by_cases hk : a.1 = k
    · simp [List.filter_cons, dictGet, hk, h]
    · cases hcond : (dictGet p a.1).isNone <;>
        simp [List.filter_cons, hcond, dictGet, hk, ih]

theorem dictGet_filter_of_some {α : Type} (u : List (String × α))
    {p : List (String × α)} {k : String} (h : (dictGet p k).isSome) :
    dictGet (u.filter (fun kv => (dictGet p kv.1).isNone)) k = none := by
  rw [dictGet_eq_none_iff]
  intro kv hmem hkey
  have := (List.mem_filter.mp hmem).2
  rw [hkey] at this
  simp only [Option.isNone_iff_eq_none] at this
  rw [this] at h
  simp at h

theorem dictGet_dictMerge {α : Type} (p u : List (String × α)) (k : String) :
    dictGet (dictMerge p u) k =
      match dictGet u k with
      | some v => some v
      | none => dictGet p k := by
  unfold dictMerge
  cases hp : dictGet p k with
  | none =>
    rw [dictGet_append_none _ (dictGet_map_override_none u hp),
      dictGet_filter_of_none u hp]
    cases dictGet u k <;> simp
  | some w =>
    have hm := dictGet_map_override_some u hp
    cases hu : dictGet u k with
    | none =>
      rw [hu] at hm
      exact dictGet_append_some _ hm
    | some v =>
      rw [hu] at hm
      exact dictGet_append_some _ hm

theorem dictSet_eq_map {α : Type} {p : List (String × α)} {k : String}
    (v : α) (h : (dictGet p k).isSome) :
    dictSet p k v = p.map (fun kv => if kv.1 = k then (k, v) else kv) := by
  unfold dictSet
  rw [if_pos h]

theorem dictSet_eq_append {α : Type} {p : List (String × α)} {k : String}
    (v : α) (h : dictGet p k = none) : dictSet p k v = p ++ [(k, v)] := by
  unfold dictSet
  rw [if_neg]
  rw [h]
  simp

theorem dictGet_map_set_self {α : Type} {p : List (String × α)} {k : String}
    {v : α} (h : (dictGet p k).isSome) :
    dictGet (p.map (fun kv => if kv.1 = k then (k, v) else kv)) k = some v := by
  induction p with
  | nil => simp [dictGet] at h
  | cons a rest ih =>
    by_cases hk : a.1 = k
    · simp [dictGet, hk]
    · have h' : (dictGet rest k).isSome := by
        simpa [dictGet, hk] using h
      simp only [List.map_cons, if_neg hk, dictGet, hk, if_false]
      exact ih h'

theorem dictGet_map_set_ne {α : Type} (p : List (String × α)) (k : String)
    (v : α) {k' : String} (hne : k' ≠ k) :
    dictGet (p.map (fun kv => if kv.1 = k then (k, v) else kv)) k' =
      dictGet p k' := by
  induction p with
  | nil => simp [dictGet]
  | cons a rest ih =>
    by_cases hk : a.1 = k
    · have h1 : ¬ k = k' := fun hc => hne hc.symm
      have h2 : ¬ a.1 = k' := by rw [hk]; exact h1
      simp only [List.map_cons, if_pos hk, dictGet, h1, h2, if_false]
      exact ih
    · simp only [List.map_cons, if_neg hk, dictGet]
      by_cases hk' : a.1 = k'
      · simp [hk']
      · simp only [hk', if_false]
        exact ih

theorem dictGet_dictSet_self {α : Type} (p : List (String × α)) (k : String)
    (v : α) : dictGet (dictSet p k v) k = some v := by
  by_cases h : (dictGet p k).isSome
  · rw [dictSet_eq_map v h]
    exact dictGet_map_set_self h
  · have hnone : dictGet p k = none := Option.not_isSome_iff_eq_none.mp h
    rw [dictSet_eq_append v hnone, dictGet_append_none _ hnone]
    simp [dictGet]

theorem dictGet_dictSet_ne {α : Type} (p : List (String × α)) {k k' : String}
    (v : α) (hne : k' ≠ k) : dictGet (dictSet p k v) k' = dictGet p k' := by
  by_cases h : (dictGet p k).isSome
  · rw [dictSet_eq_map v h]
    exact dictGet_map_set_ne p k v hne
  · have hnone : dictGet p k = none := Option.not_isSome_iff_eq_none.mp h
    rw [dictSet_eq_append v hnone]
    cases hp : dictGet p k' with
    | none =>
      rw [dictGet_append_none _ hp]
      have h1 : ¬ k = k' := fun hc => hne hc.symm
      simp [dictGet, h1]
    | some w => exact dictGet_append_some _ hp

theorem map_set_id {α : Type} {p : List (String × α)} {k : String} (v : α)
    (h : dictGet p k = none) :
    p.map (fun kv => if kv.1 = k then (k, v) else kv) = p := by
  have hall := dictGet_eq_none_iff.mp h
  rw [List.map_congr_left, List.map_id]
  intro a ha
  simp [hall a ha]

theorem dictSet_dictSet_self {α : Type} (p : List (String × α)) (k : String)
    (v : α) : dictSet (dictSet p k v) k v = dictSet p k v := by
  by_cases h : (dictGet p k).isSome
  · rw [dictSet_eq_map v h, dictSet_eq_map v (by rw [dictGet_map_set_self h]; rfl),
      List.map_map]
    apply List.map_congr_left
    intro kv _
    by_cases hk : kv.1 = k <;> simp [Function.comp, hk]
  · have hnone : dictGet p k = none := Option.not_isSome_iff_eq_none.mp h
    have hsome : (dictGet (p ++ [(k, v)]) k).isSome := by
      rw [dictGet_append_none _ hnone]
      simp [dictGet]
    rw [dictSet_eq_append v hnone, dictSet_eq_map v hsome, List.map_append,
      map_set_id v hnone]
    simp

theorem mem_dictSet {α : Type} {p : List (String × α)} {k : String} {v : α}
    {kv : String × α} (h : kv ∈ dictSet p k v) : kv ∈ p ∨ kv = (k, v) := by
  by_cases hs : (dictGet p k).isSome
  · rw [dictSet_eq_map v hs] at h
    obtain ⟨a, ha, hma⟩ := List.mem_map.mp h
    by_cases hk : a.1 = k
    · rw [if_pos hk] at hma
      exact Or.inr hma.symm
    · rw [if_neg hk] at hma
      exact Or.inl (hma ▸ ha)
  · have hnone : dictGet p k = none := Option.not_isSome_iff_eq_none.mp hs
    rw [dictSet_eq_append v hnone] at h
    rcases List.mem_append.mp h with h | h
    · exact Or.inl h
    · right; simpa using h

theorem dictSet_entry_val {α : Type} {p : List (String × α)} {k : String}
    {v : α} : ∀ kv ∈ dictSet p k v, kv.1 = k → kv.2 = v := by
  intro kv hmem hkey
  by_cases hs : (dictGet p k).isSome
  · rw [dictSet_eq_map v hs] at hmem
    obtain ⟨a, ha, hma⟩ := List.mem_map.mp hmem
    by_cases hk : a.1 = k
    · rw [if_pos hk] at hma
      rw [← hma]
    · rw [if_neg hk] at hma
      rw [hma] at hk
      exact absurd hkey hk
  · have hnone : dictGet p k = none := Option.not_isSome_iff_eq_none.mp hs
    rw [dictSet_eq_append v hnone] at hmem
    rcases List.mem_append.mp hmem with hm | hm
    · exact absurd hkey (dictGet_eq_none_iff.mp hnone kv hm)
    · have : kv = (k, v) := by simpa using hm
      rw [this]

theorem mem_dictMerge {α : Type} {p u : List (String × α)}
    (P : α → Prop) (hp : ∀ kv ∈ p, P kv.2) (hu : ∀ kv ∈ u, P kv.2) :
    ∀ kv ∈ dictMerge p u, P kv.2 := by
  intro kv hmem
  unfold dictMerge at hmem
  rcases List.mem_append.mp hmem with hm | hm
  · obtain ⟨a, ha, hma⟩ := List.mem_map.mp hm
    cases hua : dictGet u a.1 with
    | some w =>
      rw [hua] at hma
      have : kv.2 = w := by rw [← hma]
      rw [this]
      exact hu _ (dictGet_mem hua)
    | none =>
      rw [hua] at hma
      exact hma ▸ hp a ha
  · exact hu kv (List.mem_filter.mp hm).1

/-! ### Coercion and validation lemmas -/

theorem coerceVal_idem {t : FType} {v w : Value}
    (h : coerceVal t v = some w) : coerceVal t w = some w := by
  cases t <;> cases v <;> simp only [coerceVal] at h
  all_goals try cases h
  all_goals try rfl
  case tint.vfloat q =>
    split at h
    · cases h; rfl
    · cases h
  case tint.vstr s =>
    obtain ⟨n, -, hn⟩ := Option.map_eq_some'.mp h
    rw [← hn]; rfl
  case tfloat.vstr s =>
    obtain ⟨q, -, hq⟩ := Option.map_eq_some'.mp h
    rw [← hq]; rfl
  case tdate.vstr s =>
    obtain ⟨d, -, hd⟩ := Option.map_eq_some'.mp h
    rw [← hd]; rfl
  case ttime.vstr s =>
    obtain ⟨u, -, hu⟩ := Option.map_eq_some'.mp h
    rw [← hu]; rfl
  case tbool.vint n =>
    split at h
    · cases h; rfl
    · split at h
      · cases h; rfl
      · cases h
  case tbool.vstr s =>
    split at h
    · cases h; rfl
    · split at h
      · cases h; rfl
      · cases h

theorem coerceField_idem {f : String} {v w : Value}
    (h : coerceField f v = some w) : coerceField f w = some w := by
  unfold coerceField at h ⊢
  cases ht : dictGet schemaTypes f with
  | none => rw [ht] at h; cases h
  | some t =>
    rw [ht] at h
    exact coerceVal_idem h

theorem coerceVal_ne_vnone {t : FType} {v w : Value}
    (h : coerceVal t v = some w) : w ≠ Value.vnone := by
  intro hw
  rw [hw] at h
  have := coerceVal_idem h
  simp [coerceVal] at this

theorem coerceField_ne_vnone {f : String} {v w : Value}
    (h : coerceField f v = some w) : w ≠ Value.vnone := by
  unfold coerceField at h
  cases ht : dictGet schemaTypes f with
  | none => rw [ht] at h; cases h
  | some t =>
    rw [ht] at h
    exact coerceVal_ne_vnone h

theorem coerceField_mem_schema {f : String} {v w : Value}
    (h : coerceField f v = some w) : f ∈ schemaFields := by
  unfold coerceField at h
  cases ht : dictGet schemaTypes f with
  | none => rw [ht] at h; cases h
  | some t => exact List.mem_map.mpr ⟨(f, t), dictGet_mem ht, rfl⟩

theorem validDict_get {p : Dict} (hp : ValidDict p) {f : String} {v : Value}
    (h : dictGet p f = some v) : coerceField f v = some v :=
  hp (f, v) (dictGet_mem h)

theorem validateFields_entries {fs : List String} {merged valid : Dict}
    (h : validateFields fs merged = some valid) :
    ∀ kv ∈ valid, kv.1 ∈ fs ∧ ∃ v, dictGet merged kv.1 = some v ∧
      coerceField kv.1 v = some kv.2 := by
  induction fs generalizing valid with
  | nil =>
    simp only [validateFields] at h
    cases h
    simp
  | cons f fs ih =>
    simp only [validateFields] at h
    cases hrec : validateFields fs merged with
    | none => rw [hrec] at h; cases h
    | some rest =>
      simp only [hrec] at h
      cases hg : dictGet merged f with
      | none =>
        simp only [hg] at h
        cases h
        intro kv hm
        obtain ⟨h1, h2⟩ := ih hrec kv hm
        exact ⟨List.mem_cons_of_mem _ h1, h2⟩
      | some v =>
        simp only [hg] at h
        by_cases hv : v = Value.vnone
        · rw [if_pos hv] at h
          cases h
          intro kv hm
          obtain ⟨h1, h2⟩ := ih hrec kv hm
          exact ⟨List.mem_cons_of_mem _ h1, h2⟩
        · rw [if_neg hv] at h
          cases hc : coerceField f v with
          | none => simp only [hc] at h; cases h
          | some w =>
            simp only [hc] at h
            cases h
            intro kv hm
            rcases List.mem_cons.mp hm with rfl | hm
            · exact ⟨List.mem_cons_self _ _, v, hg, hc⟩
            · obtain ⟨h1, h2⟩ := ih hrec kv hm
              exact ⟨List.mem_cons_of_mem _ h1, h2⟩

theorem validateFields_get_notin {fs : List String} {merged valid : Dict}
    (h : validateFields fs merged = some valid) {f : String} (hf : f ∉ fs) :
    dictGet valid f = none := by
  rw [dictGet_eq_none_iff]
  intro kv hm hk
  exact hf (hk ▸ (validateFields_entries h kv hm).1)

theorem validateFields_get {fs : List String} {merged valid : Dict}
    (hnd : fs.Nodup) (h : validateFields fs merged = some valid) :
    ∀ f ∈ fs, dictGet valid f = stripCoerce f (dictGet merged f) := by
  induction fs generalizing valid with
  | nil => simp
  | cons g fs ih =>
    intro f hf
    simp only [validateFields] at h
    cases hrec : validateFields fs merged with
    | none => rw [hrec] at h; cases h
    | some rest =>
      simp only [hrec] at h
      have hnd' : fs.Nodup := (List.nodup_cons.mp hnd).2
      have hgnotin : g ∉ fs := (List.nodup_cons.mp hnd).1
      rcases List.mem_cons.mp hf with rfl | hfs
      · cases hg : dictGet merged f with
        | none =>
          simp only [hg] at h
          cases h
          rw [validateFields_get_notin hrec hgnotin]
          rfl
        | some v =>
          simp only [hg] at h
          by_cases hv : v = Value.vnone
          · rw [if_pos hv] at h
            cases h
            rw [validateFields_get_notin hrec hgnotin]
            simp only [stripCoerce]
            rw [if_pos hv]
          · rw [if_neg hv] at h
            cases hc : coerceField f v with
            | none => simp only [hc] at h; cases h
            | some w =>
              simp only [hc] at h
              cases h
              simp only [stripCoerce]
              rw [if_neg hv, hc]
              simp [dictGet]
      · have hne : f ≠ g := fun hc => hgnotin (hc ▸ hfs)
        cases hg : dictGet merged g with
        | none =>
          simp only [hg] at h
          cases h
          exact ih hnd' hrec f hfs
        | some v =>
          simp only [hg] at h
          by_cases hv : v = Value.vnone
          · rw [if_pos hv] at h
            cases h
            exact ih hnd' hrec f hfs
          · rw [if_neg hv] at h
            cases hc : coerceField g v with
            | none => simp only [hc] at h; cases h
            | some w =>
              simp only [hc] at h
              cases h
              have hgw : dictGet ((g, w) :: rest) f = dictGet rest f := by
                simp only [dictGet]
                rw [if_neg]
                exact fun hc => hne hc.symm
              rw [hgw]
              exact ih hnd' hrec f hfs

theorem validateFields_coercible {fs : List String} {merged valid : Dict}
    (h : validateFields fs merged = some valid) :
    ∀ f ∈ fs, ∀ v, dictGet merged f = some v → v ≠ Value.vnone →
      ∃ w, coerceField f v = some w := by
  induction fs generalizing valid with
  | nil => simp
  | cons g fs ih =>
    intro f hf v hg hv
    simp only [validateFields] at h
    cases hrec : validateFields fs merged with
    | none => rw [hrec] at h; cases h
    | some rest =>
      simp only [hrec] at h
      rcases List.mem_cons.mp hf with rfl | hfs
      · rw [hg] at h
        simp only [if_neg hv] at h
        cases hc : coerceField f v with
        | none => simp only [hc] at h; cases h
        | some w => exact ⟨w, rfl⟩
      · cases hgg : dictGet merged g with
        | none =>
          simp only [hgg] at h
          cases h
          exact ih hrec f hfs v hg hv
        | some vg =>
          simp only [hgg] at h
          by_cases hvg : vg = Value.vnone
          · rw [if_pos hvg] at h
            cases h
            exact ih hrec f hfs v hg hv
          · rw [if_neg hvg] at h
            cases hc : coerceField g vg with
            | none => simp only [hc] at h; cases h
            | some w =>
              simp only [hc] at h
              cases h
              exact ih hrec f hfs v hg hv

theorem validateFields_isSome_of_valid {p : Dict} (hp : ValidDict p) :
    ∀ fs : List String, (validateFields fs p).isSome := by
  intro fs
  induction fs with
  | nil => rfl
  | cons f fs ih =>
    simp only [validateFields]
    cases hrec : validateFields fs p with
    | none => rw [hrec] at ih; cases ih
    | some rest =>
      cases hg : dictGet p f with
      | none => rfl
      | some v =>
        have hc := validDict_get hp hg
        have hv : v ≠ Value.vnone := by
          intro hvn
          rw [hvn] at hc
          exact coerceField_ne_vnone hc rfl
        simp [if_neg hv, hc]

theorem validDict_validateFields {fs : List String} {merged valid : Dict}
    (h : validateFields fs merged = some valid) : ValidDict valid := by
  intro kv hm
  obtain ⟨-, v, -, hc⟩ := validateFields_entries h kv hm
  exact coerceField_idem hc

/-! ### Derived-field lemmas -/

theorem apply_derived_shape (today : PDate) (p : Dict) :
    apply_derived_fields today p = p ∨
    ∃ dob, (dictGet p "date_of_birth").bind asDateV = some dob ∧
      0 ≤ ageYears today dob ∧
      truthyO (dictGet p "age") = false ∧
      apply_derived_fields today p =
        dictSet p "age" (Value.vint (ageYears today dob)) := by
  unfold apply_derived_fields
  by_cases hguard : (truthyO (dictGet p "date_of_birth") &&
      !(truthyO (dictGet p "age"))) = true
  · rw [if_pos hguard]
    cases hd : (dictGet p "date_of_birth").bind asDateV with
    | none => exact Or.inl rfl
    | some dob =>
      by_cases hy : 0 ≤ ageYears today dob
      · refine Or.inr ⟨dob, rfl, hy, ?_, ?_⟩
        · have := (Bool.and_eq_true _ _).mp hguard
          simpa using this.2
        · show (if 0 ≤ ageYears today dob then
              dictSet p "age" (Value.vint (ageYears today dob)) else p) =
            dictSet p "age" (Value.vint (ageYears today dob))
          rw [if_pos hy]
      · left
        show (if 0 ≤ ageYears today dob then
            dictSet p "age" (Value.vint (ageYears today dob)) else p) = p
        rw [if_neg hy]
  · rw [if_neg hguard]
    exact Or.inl rfl

theorem dob_truthy_of_parses {p : Dict} {dob : PDate}
    (hd : (dictGet p "date_of_birth").bind asDateV = some dob) :
    truthyO (dictGet p "date_of_birth") = true := by
  cases hg : dictGet p "date_of_birth" with
  | none => rw [hg] at hd; cases hd
  | some v =>
    rw [hg] at hd
    cases v with
    | vnone => simp [asDateV] at hd
    | vint n => simp [asDateV] at hd
    | vfloat q => simp [asDateV] at hd
    | vbool b => simp [asDateV] at hd
    | vtime t => simp [asDateV] at hd
    | vdate d => rfl
    | vstr s =>
      have hs : s ≠ "" := by
        intro hs
        rw [hs] at hd
        have hnone : (some (Value.vstr "")).bind asDateV =
            (none : Option PDate) := rfl
        rw [hnone] at hd
        cases hd
      simp [truthyO, truthy, hs]

theorem apply_derived_get_ne_age (today : PDate) (p : Dict) {f : String}
    (hf : f ≠ "age") :
    dictGet (apply_derived_fields today p) f = dictGet p f := by
  rcases apply_derived_shape today p with h | ⟨dob, -, -, -, h⟩
  · rw [h]
  · rw [h, dictGet_dictSet_ne p _ hf]

theorem apply_derived_fields_idem_aux (today : PDate) (p : Dict) :
    apply_derived_fields today (apply_derived_fields today p) =
      apply_derived_fields today p := by
  rcases apply_derived_shape today p with h | ⟨dob, hd, hy, hage, h⟩
  · rw [h, h]
  · rw [h]
    have hdob : dictGet (dictSet p "age" (Value.vint (ageYears today dob)))
        "date_of_birth" = dictGet p "date_of_birth" :=
      dictGet_dictSet_ne p _ (by decide)
    have hagev : dictGet (dictSet p "age" (Value.vint (ageYears today dob)))
        "age" = some (Value.vint (ageYears today dob)) :=
      dictGet_dictSet_self p _ _
    have htr := dob_truthy_of_parses hd
    by_cases h0 : ageYears today dob = 0
    · have hfalse : truthyO (some (Value.vint (ageYears today dob))) =
          false := by rw [h0]; rfl
      have hguardT : (truthyO (dictGet
            (dictSet p "age" (Value.vint (ageYears today dob)))
            "date_of_birth") &&
          !(truthyO (dictGet
            (dictSet p "age" (Value.vint (ageYears today dob))) "age"))) =
          true := by
        rw [hdob, hagev, htr, hfalse]
        rfl
      unfold apply_derived_fields
      rw [if_pos hguardT, hdob, hd]
      show (if 0 ≤ ageYears today dob then
          dictSet (dictSet p "age" (Value.vint (ageYears today dob))) "age"
            (Value.vint (ageYears today dob))
        else dictSet p "age" (Value.vint (ageYears today dob))) =
        dictSet p "age" (Value.vint (ageYears today dob))
      rw [if_pos hy]
      exact dictSet_dictSet_self p "age" _
    · have htru : truthyO (some (Value.vint (ageYears today dob))) =
          true := by simp [truthyO, truthy, h0]
      have hguardF : (truthyO (dictGet
            (dictSet p "age" (Value.vint (ageYears today dob)))
            "date_of_birth") &&
          !(truthyO (dictGet
            (dictSet p "age" (Value.vint (ageYears today dob))) "age"))) ≠
          true := by
        rw [hagev, htru]
        simp
      unfold apply_derived_fields
      rw [if_neg hguardF]

/-! ### Invariant-preservation lemmas -/

theorem validDict_apply_derived {p : Dict} (hp : ValidDict p)
    (today : PDate) : ValidDict (apply_derived_fields today p) := by
  rcases apply_derived_shape today p with h | ⟨dob, -, -, -, h⟩
  · rw [h]; exact hp
  · rw [h]
    intro kv hm
    rcases mem_dictSet hm with hm | rfl
    · exact hp kv hm
    · rfl

theorem validDict_mergeProfileStep {p : Dict} (hp : ValidDict p) (u : Dict) :
    ValidDict (mergeProfileStep p u) := by
  unfold mergeProfileStep
  split
  · exact hp
  · cases hval : validateFields schemaFields (dictMerge p u) with
    | none => exact hp
    | some valid => exact validDict_validateFields hval

theorem validDict_entries {p : Dict} (hp : ValidDict p) :
    ∀ kv ∈ p, kv.1 ∈ schemaFields ∧ kv.2 ≠ Value.vnone :=
  fun kv hm =>
    ⟨coerceField_mem_schema (hp kv hm), coerceField_ne_vnone (hp kv hm)⟩

theorem parseFieldValue_ne_vnone {f value : String} {w : Value}
    (h : parseFieldValue f value = some w) : w ≠ Value.vnone := by
  unfold parseFieldValue at h
  split_ifs at h
  all_goals
    try (obtain ⟨x, -, hx⟩ := Option.map_eq_some'.mp h; rw [← hx]; simp)
  all_goals try cases h
  all_goals simp

theorem processLine_values {updates : Dict} {line : String}
    (h : ∀ kv ∈ updates, kv.2 ≠ Value.vnone) :
    ∀ kv ∈ processLine updates line, kv.2 ≠ Value.vnone := by
  intro kv hm
  simp only [processLine] at hm
  split at hm
  · exact h kv hm
  · split at hm
    · exact h kv hm
    · split at hm
      · rcases mem_dictSet hm with hm | rfl
        · exact h kv hm
        · next v hpv => exact parseFieldValue_ne_vnone hpv
      · exact h kv hm

theorem foldl_processLine_values (lines : List String) (updates : Dict)
    (h : ∀ kv ∈ updates, kv.2 ≠ Value.vnone) :
    ∀ kv ∈ lines.foldl processLine updates, kv.2 ≠ Value.vnone := by
  induction lines generalizing updates with
  | nil => exact h
  | cons l ls ih => exact ih _ (processLine_values h)

theorem labeled_values_ne_vnone (input : String) :
    ∀ kv ∈ extract_from_labeled_lines input, kv.2 ≠ Value.vnone := by
  unfold extract_from_labeled_lines
  exact foldl_processLine_values _ _ (by intro kv hm; cases hm)

theorem extract_values_ne_vnone {env : ExtractEnv} {input : String}
    {u : Dict} (h : extract_profile_updates env input = Except.ok u) :
    ∀ kv ∈ u, kv.2 ≠ Value.vnone := by
  cases env with
  | langchainOk dump =>
    cases h
    refine mem_dictMerge (fun v => v ≠ Value.vnone) ?_ (labeled_values_ne_vnone input)
    intro kv hm
    have := (List.mem_filter.mp hm).2
    exact of_decide_eq_true this
  | fallbackRaise => cases h
  | fallbackNotJson =>
    cases h
    intro kv hm
    cases hm
  | fallbackNonDict =>
    cases h
    intro kv hm
    cases hm
  | fallbackDict data =>
    cases h
    refine mem_dictMerge (fun v => v ≠ Value.vnone) ?_ (labeled_values_ne_vnone input)
    intro kv hm
    have := (List.mem_filter.mp hm).2
    exact (of_decide_eq_true this).2

/-! ### Missing-field lemmas -/

theorem schemaFields_nodup : schemaFields.Nodup := by decide

theorem mem_missing_base {p : Dict} {s : List String} {f : String}
    (h : f ∈ missing_fields p s) :
    f ∈ schemaFields.filter
      (fun f => decide (dictGet p f = none ∧ f ∉ s)) := by
  simp only [missing_fields] at h
  split at h
  · have h1 := (List.mem_filter.mp h).1
    split at h1
    · exact (List.mem_filter.mp h1).1
    · exact h1
  · split at h
    · exact (List.mem_filter.mp h).1
    · exact h

theorem mem_missing_fields {p : Dict} {s : List String} {f : String}
    (h : f ∈ missing_fields p s) : dictGet p f = none ∧ f ∉ s :=
  of_decide_eq_true (List.mem_filter.mp (mem_missing_base h)).2

theorem missing_no_age {p : Dict} {s : List String}
    (h : dictGet p "date_of_birth" ≠ none) :
    "age" ∉ missing_fields p s := by
  intro hm
  simp only [missing_fields] at hm
  rw [if_pos h] at hm
  split at hm
  · have h1 := (List.mem_filter.mp (List.mem_filter.mp hm).1).2
    simp at h1
  · have h1 := (List.mem_filter.mp hm).2
    simp at h1

theorem missing_no_dob {p : Dict} {s : List String}
    (h : dictGet p "age" ≠ none) :
    "date_of_birth" ∉ missing_fields p s := by
  intro hm
  simp only [missing_fields] at hm
  rw [if_pos h] at hm
  have h1 := (List.mem_filter.mp hm).2
  simp at h1

theorem mem_setAdd {s : List String} {x g : String} :
    g ∈ setAdd s x ↔ g ∈ s ∨ g = x := by
  unfold setAdd
  split
  · next hx =>
    constructor
    · exact Or.inl
    · rintro (h | rfl)
      · exact h
      · exact hx
  · simp

/-! ### Claim theorems -/

/-- C4: for every profile and skip set, if `date_of_birth` is a key of
the profile then `age` is not missing, if `age` is a key then
`date_of_birth` is not missing (both regardless of the skip set), and
`_missing_fields` never returns a field that is a key of the profile or
a member of the skip set. -/
theorem missing_fields_sound (p : Dict) (s : List String) :
    (dictGet p "date_of_birth" ≠ none → "age" ∉ missing_fields p s) ∧
    (dictGet p "age" ≠ none → "date_of_birth" ∉ missing_fields p s) ∧
    (∀ f ∈ missing_fields p s, dictGet p f = none ∧ f ∉ s) :=
  ⟨missing_no_age, missing_no_dob, fun _ hf => mem_missing_fields hf⟩

/-- Witness for C4 at a concrete profile and skip set. -/
theorem missing_fields_sound_witness :
    "age" ∉ missing_fields
      [("date_of_birth", Value.vdate ⟨1990, 6, 15⟩), ("age", Value.vint 34)]
      ["workout_type"] ∧
    "date_of_birth" ∉ missing_fields
      [("date_of_birth", Value.vdate ⟨1990, 6, 15⟩), ("age", Value.vint 34)]
      ["workout_type"] ∧
    (dictGet [("date_of_birth", Value.vdate ⟨1990, 6, 15⟩),
        ("age", Value.vint 34)] "gender_or_sex" = none ∧
      "gender_or_sex" ∉ ["workout_type"]) :=
  ⟨(missing_fields_sound _ _).1 (by decide),
   (missing_fields_sound _ _).2.1 (by decide),
   (missing_fields_sound _ _).2.2 "gender_or_sex" (by decide)⟩

/-- C6: with the current date held fixed, `_apply_derived_fields` is
idempotent. -/
theorem apply_derived_fields_idem (today : PDate) (p : Dict) :
    apply_derived_fields today (apply_derived_fields today p) =
      apply_derived_fields today p :=
  apply_derived_fields_idem_aux today p

/-- C5 (amended): for a profile with a `date` under `date_of_birth` and
no `age` key, `_apply_derived_fields` stores the whole-year difference
(decremented when the current month-day precedes the birth month-day)
provided that difference is nonnegative; and whenever the stored
`date_of_birth` value fails to parse as a date, the profile is returned
unchanged. -/
theorem derived_age_formula (today : PDate) (p : Dict) :
    (∀ dob, dictGet p "date_of_birth" = some (Value.vdate dob) →
      dictGet p "age" = none → 0 ≤ ageYears today dob →
      dictGet (apply_derived_fields today p) "age" =
        some (Value.vint (ageYears today dob))) ∧
    (∀ v, dictGet p "date_of_birth" = some v → asDateV v = none →
      apply_derived_fields today p = p) := by
  constructor
  · intro dob hd ha hy
    have hguard : (truthyO (dictGet p "date_of_birth") &&
        !(truthyO (dictGet p "age"))) = true := by
      rw [hd, ha]
      rfl
    have hform : apply_derived_fields today p =
        if 0 ≤ ageYears today dob then
          dictSet p "age" (Value.vint (ageYears today dob)) else p := by
      unfold apply_derived_fields
      rw [if_pos hguard, hd]
      rfl
    rw [hform, if_pos hy, dictGet_dictSet_self]
  · intro v hd hn
    rcases apply_derived_shape today p with h | ⟨dob, hbind, -, -, -⟩
    · exact h
    · rw [hd] at hbind
      have hb2 : asDateV v = some dob := hbind
      rw [hn] at hb2
      cases hb2

/-- Witness for C5: the spec's scenario `date_of_birth = 1990-06-15` on
2024-01-10 derives `age = 33`. -/
theorem derived_age_formula_witness :
    dictGet (apply_derived_fields ⟨2024, 1, 10⟩
        [("date_of_birth", Value.vdate ⟨1990, 6, 15⟩)]) "age" =
      some (Value.vint (ageYears ⟨2024, 1, 10⟩ ⟨1990, 6, 15⟩)) ∧
    ageYears ⟨2024, 1, 10⟩ ⟨1990, 6, 15⟩ = 33 :=
  ⟨(derived_age_formula ⟨2024, 1, 10⟩ _).1 ⟨1990, 6, 15⟩ (by decide)
    (by decide) (by decide), by decide⟩

/-- Counterexample to C5 as stated: for a future date of birth
(2030-06-15 seen on 2024-01-10) the claimed formula gives `-7`, but the
code leaves `age` unset. -/
theorem derived_age_future_dob :
    dictGet (apply_derived_fields ⟨2024, 1, 10⟩
        [("date_of_birth", Value.vdate ⟨2030, 6, 15⟩)]) "age" = none ∧
    ageYears ⟨2024, 1, 10⟩ ⟨2030, 6, 15⟩ = -7 := by decide

/-- C9: `age = 0` with a parseable `date_of_birth` is treated as absent
by the truthiness test of `_apply_derived_fields`, so the stored `0` is
overwritten with the derived value, even though `_missing_fields`
treats that same `age` key as present. -/
theorem zero_age_overwritten (today : PDate) (p : Dict) (dob : PDate)
    (s : List String)
    (h0 : dictGet p "age" = some (Value.vint 0))
    (hd : dictGet p "date_of_birth" = some (Value.vdate dob))
    (hy : 0 ≤ ageYears today dob) :
    dictGet (apply_derived_fields today p) "age" =
      some (Value.vint (ageYears today dob)) ∧
    "age" ∉ missing_fields p s := by
  constructor
  · have hguard : (truthyO (dictGet p "date_of_birth") &&
        !(truthyO (dictGet p "age"))) = true := by
      rw [hd, h0]
      rfl
    have hform : apply_derived_fields today p =
        if 0 ≤ ageYears today dob then
          dictSet p "age" (Value.vint (ageYears today dob)) else p := by
      unfold apply_derived_fields
      rw [if_pos hguard, hd]
      rfl
    rw [hform, if_pos hy, dictGet_dictSet_self]
  · intro hm
    have := (mem_missing_fields hm).1
    rw [h0] at this
    cases this

/-- Witness for C9 at a concrete profile. -/
theorem zero_age_overwritten_witness :
    dictGet (apply_derived_fields ⟨2024, 1, 10⟩
        [("age", Value.vint 0),
         ("date_of_birth", Value.vdate ⟨1990, 6, 15⟩)]) "age" =
      some (Value.vint (ageYears ⟨2024, 1, 10⟩ ⟨1990, 6, 15⟩)) ∧
    "age" ∉ missing_fields
      [("age", Value.vint 0),
       ("date_of_birth", Value.vdate ⟨1990, 6, 15⟩)] [] :=
  zero_age_overwritten _ _ _ _ (by decide) (by decide) (by decide)

/-- C10: a future date of birth never yields a stored negative age: when
the computed difference is negative the profile is unchanged, and any
negative `age` visible after `_apply_derived_fields` was already stored
before the call. -/
theorem no_negative_derived_age (today : PDate) (p : Dict) :
    (∀ dob, dictGet p "date_of_birth" = some (Value.vdate dob) →
      ageYears today dob < 0 → apply_derived_fields today p = p) ∧
    (∀ n, dictGet (apply_derived_fields today p) "age" =
        some (Value.vint n) → n < 0 →
      dictGet p "age" = some (Value.vint n)) := by
  constructor
  · intro dob hd hneg
    rcases apply_derived_shape today p with h | ⟨dob2, hbind, hy, -, -⟩
    · exact h
    · rw [hd] at hbind
      have hb2 : some dob = some dob2 := hbind
      cases hb2
      omega
  · intro n hga hneg
    rcases apply_derived_shape today p with h | ⟨dob, -, hy, -, h⟩
    · rw [h] at hga
      exact hga
    · rw [h, dictGet_dictSet_self] at hga
      injection hga with h1
      injection h1 with h2
      omega

/-- Witness for C10 at a concrete future date of birth. -/
theorem no_negative_derived_age_witness :
    apply_derived_fields ⟨2024, 1, 10⟩
        [("date_of_birth", Value.vdate ⟨2030, 1, 1⟩)] =
      [("date_of_birth", Value.vdate ⟨2030, 1, 1⟩)] :=
  (no_negative_derived_age _ _).1 ⟨2030, 1, 1⟩ (by decide) (by decide)

/-- C1: the extraction-merge step of `generate_onboarding_reply` is
atomic.  For a well-formed stored profile and a nonempty extraction
result (schema keys, no nulls): if validating the merged mapping fails,
the profile is returned exactly unchanged; if it succeeds, each
extracted field holds its coerced extracted value and every other field
is untouched. -/
theorem merge_step_atomic (p u : Dict) (hp : ValidDict p)
    (hu : ∀ kv ∈ u, kv.1 ∈ schemaFields ∧ kv.2 ≠ Value.vnone)
    (hne : u ≠ []) :
    (validateFields schemaFields (dictMerge p u) = none →
      mergeProfileStep p u = p) ∧
    (∀ valid, validateFields schemaFields (dictMerge p u) = some valid →
      mergeProfileStep p u = valid ∧
      (∀ f v, dictGet u f = some v →
        ∃ w, coerceField f v = some w ∧ dictGet valid f = some w) ∧
      (∀ f, dictGet u f = none → dictGet valid f = dictGet p f)) := by
  constructor
  · intro hfail
    unfold mergeProfileStep
    rw [if_neg hne, hfail]
  · intro valid hval
    refine ⟨?_, ?_, ?_⟩
    · unfold mergeProfileStep
      rw [if_neg hne, hval]
    · intro f v huf
      have hfs : f ∈ schemaFields := (hu (f, v) (dictGet_mem huf)).1
      have hvn : v ≠ Value.vnone := (hu (f, v) (dictGet_mem huf)).2
      have hmerged : dictGet (dictMerge p u) f = some v := by
        rw [dictGet_dictMerge, huf]
      obtain ⟨w, hw⟩ := validateFields_coercible hval f hfs v hmerged hvn
      refine ⟨w, hw, ?_⟩
      rw [validateFields_get schemaFields_nodup hval f hfs, hmerged]
      simp only [stripCoerce]
      rw [if_neg hvn, hw]
    · intro f huf
      by_cases hfs : f ∈ schemaFields
      · rw [validateFields_get schemaFields_nodup hval f hfs,
          dictGet_dictMerge, huf]
        cases hpf : dictGet p f with
        | none => rfl
        | some w =>
          have hc := validDict_get hp hpf
          have hwn : w ≠ Value.vnone := coerceField_ne_vnone hc
          simp only [stripCoerce]
          rw [if_neg hwn, hc]
      · rw [validateFields_get_notin hval hfs]
        cases hpf : dictGet p f with
        | none => rfl
        | some w =>
          have hc := validDict_get hp hpf
          exact absurd (coerceField_mem_schema hc) hfs

/-- Witness for C1 at concrete dicts: an age given as the string
`"34"` coerces to the integer `34` and the untouched `workout_type` is
preserved. -/
theorem merge_step_atomic_witness :
    mergeProfileStep [("workout_type", Value.vstr "yoga")]
        [("age", Value.vstr "34")] =
      [("age", Value.vint 34), ("workout_type", Value.vstr "yoga")] ∧
    dictGet [("age", Value.vint 34), ("workout_type", Value.vstr "yoga")]
        "workout_type" =
      dictGet [("workout_type", Value.vstr "yoga")] "workout_type" :=
  ⟨((merge_step_atomic [("workout_type", Value.vstr "yoga")]
        [("age", Value.vstr "34")] (by decide) (by decide) (by decide)).2
      [("age", Value.vint 34), ("workout_type", Value.vstr "yoga")]
      (by decide)).1,
   ((merge_step_atomic [("workout_type", Value.vstr "yoga")]
        [("age", Value.vstr "34")] (by decide) (by decide) (by decide)).2
      [("age", Value.vint 34), ("workout_type", Value.vstr "yoga")]
      (by decide)).2.2 "workout_type" (by decide)⟩

/-- C3 (amended): `_extract_profile_updates` raises exactly when the
LangChain path fails and the fallback completion call itself raises;
an undecodable or non-object fallback response yields the empty
mapping (discarding the deterministic parser's results); and on every
other successful return, each field found by the deterministic
labeled-line parser appears in the result with the parser's value. -/
theorem extraction_fallback_behavior (env : ExtractEnv) (input : String) :
    (extract_profile_updates env input = Except.error () ↔
      env = ExtractEnv.fallbackRaise) ∧
    (env = ExtractEnv.fallbackNotJson ∨ env = ExtractEnv.fallbackNonDict →
      extract_profile_updates env input = Except.ok []) ∧
    (∀ u, extract_profile_updates env input = Except.ok u →
      env ≠ ExtractEnv.fallbackNotJson → env ≠ ExtractEnv.fallbackNonDict →
      ∀ f v, dictGet (extract_from_labeled_lines input) f = some v →
        dictGet u f = some v) := by
  refine ⟨?_, ?_, ?_⟩
  · cases env <;> simp [extract_profile_updates]
  · rintro (rfl | rfl) <;> rfl
  · intro u hu hnj hnd f v hlab
    cases env with
    | langchainOk dump =>
      cases hu
      rw [dictGet_dictMerge, hlab]
    | fallbackRaise => cases hu
    | fallbackNotJson => exact absurd rfl hnj
    | fallbackNonDict => exact absurd rfl hnd
    | fallbackDict data =>
      cases hu
      rw [dictGet_dictMerge, hlab]

/-- Witness for C3 (amended) at a concrete fallback JSON object and a
labeled-line utterance. -/
theorem extraction_fallback_behavior_witness :
    dictGet [("weight_kg", Value.vint 70),
        ("sleep_bedtime", Value.vtime ⟨22, 30, 0⟩)] "sleep_bedtime" =
      some (Value.vtime ⟨22, 30, 0⟩) :=
  (extraction_fallback_behavior
      (ExtractEnv.fallbackDict
        [("age", Value.vnone), ("weight_kg", Value.vint 70)])
      "Bedtime: 22:30").2.2
    [("weight_kg", Value.vint 70),
      ("sleep_bedtime", Value.vtime ⟨22, 30, 0⟩)]
    rfl (by decide) (by decide) "sleep_bedtime"
    (Value.vtime ⟨22, 30, 0⟩) (by decide)

/-- Counterexample to C3 as stated: with the LangChain path down and the
fallback completion call raising, `_extract_profile_updates` raises
instead of returning the deterministic parser's nonempty result. -/
theorem extraction_fallback_raises :
    extract_profile_updates ExtractEnv.fallbackRaise "Age: 34" =
      Except.error () ∧
    extract_from_labeled_lines "Age: 34" = [("age", Value.vint 34)] :=
  ⟨rfl, rfl⟩

/-- Counterexample to C2 as stated: with the completion call raising, a
`"skip"` utterance still commits the skip — the skipped set for the key
grows from `[]` to `["age"]` even though the turn fails. -/
theorem turn_failure_mutates_state :
    generate_onboarding_reply ⟨2024, 1, 10⟩
        ⟨none, ExtractEnv.fallbackNotJson⟩ ⟨[], [], []⟩ "skip" =
      (⟨[], [], ["age"]⟩, Except.error ()) ∧
    (["age"] : List String) ≠ [] :=
  ⟨rfl, by decide⟩

/-- C2 (amended): when the completion call raises, the failure
propagates and neither the history nor any profile field other than the
derived `age` is touched; but the pre-call steps still commit — the
derived-field application may set `age`, and a skip-token utterance adds
the targeted field to the skipped set. -/
theorem completion_failure_effects (today : PDate) (env : TurnEnv)
    (st : ConvState) (input : String) (hc : env.completion = none) :
    (generate_onboarding_reply today env st input).2 = Except.error () ∧
    (generate_onboarding_reply today env st input).1.history = st.history ∧
    (∀ f, f ≠ "age" →
      dictGet (generate_onboarding_reply today env st input).1.profile f =
        dictGet st.profile f) ∧
    (∀ g, g ∈ (generate_onboarding_reply today env st input).1.skipped ↔
      (g ∈ st.skipped ∨
        ((missing_fields (apply_derived_fields today st.profile)
            st.skipped).head? = some g ∧
          pyLower (pyStrip input) ∈ skipTokens))) := by
  have hred : generate_onboarding_reply today env st input =
      (⟨st.history, apply_derived_fields today st.profile,
        match (missing_fields (apply_derived_fields today st.profile)
            st.skipped).head? with
        | some f =>
          if pyLower (pyStrip input) ∈ skipTokens then setAdd st.skipped f
          else st.skipped
        | none => st.skipped⟩, Except.error ()) := by
    unfold generate_onboarding_reply
    rw [hc]
  rw [hred]
  refine ⟨rfl, rfl, ?_, ?_⟩
  · intro f hf
    exact apply_derived_get_ne_age today st.profile hf
  · intro g
    cases ht : (missing_fields (apply_derived_fields today st.profile)
        st.skipped).head? with
    | none => simp
    | some f =>
      show g ∈ (if pyLower (pyStrip input) ∈ skipTokens then
          setAdd st.skipped f else st.skipped) ↔ _
      by_cases hskip : pyLower (pyStrip input) ∈ skipTokens
      · rw [if_pos hskip, mem_setAdd]
        constructor
        · rintro (h | rfl)
          · exact Or.inl h
          · exact Or.inr ⟨rfl, hskip⟩
        · rintro (h | ⟨hg, -⟩)
          · exact Or.inl h
          · injection hg with hg
            exact Or.inr hg.symm
      · rw [if_neg hskip]
        constructor
        · exact Or.inl
        · rintro (h | ⟨-, hsk⟩)
          · exact h
          · exact absurd hsk hskip

/-- Witness for C2 (amended) at a concrete failing turn. -/
theorem completion_failure_effects_witness :
    (generate_onboarding_reply ⟨2024, 1, 10⟩
        ⟨none, ExtractEnv.fallbackNotJson⟩ ⟨[], [], []⟩ "skip").2 =
      Except.error () ∧
    "age" ∈ (generate_onboarding_reply ⟨2024, 1, 10⟩
        ⟨none, ExtractEnv.fallbackNotJson⟩ ⟨[], [], []⟩ "skip").1.skipped := by
  have h := completion_failure_effects ⟨2024, 1, 10⟩
    ⟨none, ExtractEnv.fallbackNotJson⟩ ⟨[], [], []⟩ "skip" rfl
  exact ⟨h.1, (h.2.2.2 "age").mpr (Or.inr ⟨by decide, by decide⟩)⟩

/-- C7: a skip-token utterance for an existing targeted field adds that
field to the skipped set, leaves the field absent from the profile, and
the turn still completes normally — the utterance and the reply are
appended to history and the utterance still went through extraction
(here yielding no updates, as a bare skip token parses to nothing). -/
theorem skip_token_turn (today : PDate) (env : TurnEnv) (st : ConvState)
    (input reply f : String) (rest : List String)
    (hv : ValidDict st.profile)
    (hm : missing_fields (apply_derived_fields today st.profile)
      st.skipped = f :: rest)
    (hs : pyLower (pyStrip input) ∈ skipTokens)
    (hc : env.completion = some reply)
    (he : extract_profile_updates env.ext input = Except.ok []) :
    generate_onboarding_reply today env st input =
      (⟨st.history ++ [⟨"user", input⟩, ⟨"assistant", reply⟩],
        apply_derived_fields today st.profile, setAdd st.skipped f⟩,
       Except.ok reply) ∧
    dictGet (apply_derived_fields today st.profile) f = none ∧
    f ∈ setAdd st.skipped f := by
  have hmem : f ∈ missing_fields (apply_derived_fields today st.profile)
      st.skipped := by
    rw [hm]
    exact List.mem_cons_self _ _
  have hnone : dictGet (apply_derived_fields today st.profile) f = none :=
    (mem_missing_fields hmem).1
  refine ⟨?_, hnone, mem_setAdd.mpr (Or.inr rfl)⟩
  have hmerge : mergeProfileStep (apply_derived_fields today st.profile)
      [] = apply_derived_fields today st.profile := by
    unfold mergeProfileStep
    rw [if_pos rfl]
  have hvalFinal : (validateFields schemaFields
      (apply_derived_fields today st.profile)).isSome :=
    validateFields_isSome_of_valid (validDict_apply_derived hv today) _
  unfold generate_onboarding_reply
  simp only [hc, he, hm, List.head?]
  rw [if_pos hs, hmerge, apply_derived_fields_idem_aux, if_pos hvalFinal]

/-- Witness for C7: the spec's scenario of answering exactly `"skip"`
on a fresh conversation (targeted field `age`). -/
theorem skip_token_turn_witness :
    generate_onboarding_reply ⟨2024, 1, 10⟩
        ⟨some "ok", ExtractEnv.fallbackNotJson⟩ ⟨[], [], []⟩ "skip" =
      (⟨[⟨"user", "skip"⟩, ⟨"assistant", "ok"⟩],
        apply_derived_fields ⟨2024, 1, 10⟩ [], setAdd [] "age"⟩,
       Except.ok "ok") ∧
    dictGet (apply_derived_fields ⟨2024, 1, 10⟩ []) "age" = none ∧
    "age" ∈ setAdd [] "age" :=
  skip_token_turn ⟨2024, 1, 10⟩ ⟨some "ok", ExtractEnv.fallbackNotJson⟩
    ⟨[], [], []⟩ "skip" "ok" "age"
    ["date_of_birth", "gender_or_sex", "height_cm", "weight_kg",
     "sleep_bedtime", "sleep_wake_time", "workout_type",
     "workout_days_per_week", "physical_activity_profile",
     "substance_alcohol_per_week", "substance_tobacco_per_day",
     "substance_caffeine_mg_per_day", "coping_strategies",
     "preferred_checkin_time", "notification_style", "married_status",
     "social_support", "target_sleep_hours", "voice_or_chat_preference"]
    (by decide) (by decide) (by decide) rfl rfl

/-- C8: after every completed turn started from a well-formed stored
profile, the stored profile maps only schema field names and never maps
a key to `None`; and every extraction result merged into it is likewise
free of `None` values (absence is a missing key). -/
theorem turn_profile_wellformed (today : PDate) (env : TurnEnv)
    (st : ConvState) (input : String) (st' : ConvState) (reply : String)
    (hv : ValidDict st.profile)
    (hr : generate_onboarding_reply today env st input =
      (st', Except.ok reply)) :
    (∀ kv ∈ st'.profile, kv.1 ∈ schemaFields ∧ kv.2 ≠ Value.vnone) ∧
    (∀ u, extract_profile_updates env.ext input = Except.ok u →
      ∀ kv ∈ u, kv.2 ≠ Value.vnone) := by
  refine ⟨?_, fun u hu => extract_values_ne_vnone hu⟩
  unfold generate_onboarding_reply at hr
  cases hce : env.completion with
  | none =>
    simp only [hce] at hr
    simp at hr
  | some r =>
    simp only [hce] at hr
    cases hex : extract_profile_updates env.ext input with
    | error e =>
      simp only [hex] at hr
      simp at hr
    | ok updates =>
      simp only [hex] at hr
      split at hr
      · injection hr with hA hB
        rw [← hA]
        exact validDict_entries (validDict_apply_derived
          (validDict_mergeProfileStep
            (validDict_apply_derived hv today) updates) today)
      · injection hr with hA hB
        cases hB

/-- Witness for C8 at a concrete completed turn. -/
theorem turn_profile_wellformed_witness :
    (∀ kv ∈ (⟨[⟨"user", ""⟩, ⟨"assistant", "hi"⟩], [], []⟩ :
        ConvState).profile,
      kv.1 ∈ schemaFields ∧ kv.2 ≠ Value.vnone) ∧
    (∀ u, extract_profile_updates ExtractEnv.fallbackNotJson "" =
        Except.ok u → ∀ kv ∈ u, kv.2 ≠ Value.vnone) :=
  turn_profile_wellformed ⟨2024, 1, 10⟩
    ⟨some "hi", ExtractEnv.fallbackNotJson⟩ ⟨[], [], []⟩ ""
    ⟨[⟨"user", ""⟩, ⟨"assistant", "hi"⟩], [], []⟩ "hi" (by decide) rfl
